import Mathlib

/-!
Verification of the PIPECAST ensemble pipeline (`pipecast/ensemble.py`,
`pipecast/forecast_processor.py`) against its natural-language specification.

The Python code is shallowly embedded: grids become functions from cells to
numbers, geometries become finite sets of covered grid cells, dictionaries
keyed by bin label become functions guarded by an explicit key list (so that
a Python `KeyError` is an `Option.none` abort), and `float` arithmetic is
modelled over `ℚ`.
-/

namespace PIPECAST

/-- A grid cell, identified by (row, col). -/
abbrev Cell := ℕ × ℕ

/-! ## BinClassifier (`EnsembleProcessor.threshold_to_bin_label`)

The Python method iterates `zip(self.bins, self.bin_labels)` and returns the
label of the first pair whose closed interval contains the threshold, else
the sentinel string `"UNBINNED"`. -/

/-- The sentinel returned when no bin interval contains the threshold. -/
def UNBINNED : String := "UNBINNED"

/-- The loop body of `threshold_to_bin_label`: walk the zipped
(bin-range, label) list in declaration order; first match wins. -/
def classifyZipped (threshold : ℚ) : List ((ℚ × ℚ) × String) → String
  | [] => UNBINNED
  | ((lo, hi), lbl) :: rest =>
      if lo ≤ threshold ∧ threshold ≤ hi then lbl else classifyZipped threshold rest

/-- Model of `EnsembleProcessor.threshold_to_bin_label`: maps a threshold to the label
of the first bin (in declaration order) whose closed interval `[lo, hi]`
contains it, or `"UNBINNED"` when none does. -/
def threshold_to_bin_label (bins : List (ℚ × ℚ)) (bin_labels : List String)
    (threshold : ℚ) : String :=
  classifyZipped threshold (bins.zip bin_labels)

/-! ## EnsembleGridAccumulator (`EnsembleProcessor.create_ensemble_probabilities`)

One ensemble member, as collected by `collect_members` and consumed by the
accumulation loop.  The `readGeoms` field models the outcome of
`gpd.read_file` + `to_crs` + rasterization inside the `try` block:
`none` when reading or parsing raises, `some geoms` when it succeeds, where
each geometry is the finite set of grid cells its rasterized footprint
covers. -/
structure Member where
  method : String
  date : String
  fxx : ℕ
  thr : ℚ
  readGeoms : Option (List (Finset Cell))
deriving DecidableEq

/-- Cells burned by `rasterize` for one member: the union of its geometry
footprints (a binary grid: each covered cell holds 1).  A member whose read
fails, or whose collection is empty, burns nothing. -/
def memberCells (m : Member) : Finset Cell :=
  match m.readGeoms with
  | none => ∅
  | some geoms => geoms.foldr (fun g acc => g ∪ acc) ∅

/-- The mutable accumulator state of `create_ensemble_probabilities`:
`counts_by_bin` (per-label uint16 count grids) and `denom_by_bin`
(per-label member counts).  Both Python dicts are keyed exactly by
`self.bin_labels`; lookups at other keys raise `KeyError`. -/
structure EnsembleAcc where
  counts : String → Cell → ℕ
  denom : String → ℕ

/-- The all-zero initial accumulator. -/
def initAcc : EnsembleAcc := ⟨fun _ _ => 0, fun _ => 0⟩

/-- The `uint16` modulus for the count grids. -/
def U16 : ℕ := 65536

/-- One iteration of the member loop in `create_ensemble_probabilities`:
classify the threshold, then `denom_by_bin[lbl] += 1` — which raises
`KeyError` (modelled as `none`) when the label is not a configured bin
label, since the increment sits outside the `try` block — then, inside the
`try`, add the member's rasterized binary grid into `counts_by_bin[lbl]`
(`uint16` addition, hence mod 65536); a read failure is caught and only
skips the count-grid addition. -/
def stepMember (bins : List (ℚ × ℚ)) (bin_labels : List String) (st : EnsembleAcc)
    (m : Member) : Option EnsembleAcc :=
  let lbl := threshold_to_bin_label bins bin_labels m.thr
  if lbl ∈ bin_labels then
    some { denom := fun k => if k = lbl then st.denom k + 1 else st.denom k,
           counts := fun k c =>
             if k = lbl ∧ c ∈ memberCells m then (st.counts k c + 1) % U16
             else st.counts k c }
  else none

/-- The accumulation loop over a member list, from a given state. -/
def runAccumFrom (bins : List (ℚ × ℚ)) (bin_labels : List String) :
    List Member → EnsembleAcc → Option EnsembleAcc
  | [], st => some st
  | m :: ms, st =>
      match stepMember bins bin_labels st m with
      | none => none
      | some st' => runAccumFrom bins bin_labels ms st'

/-- The whole accumulation phase of `create_ensemble_probabilities`, starting
from zeroed accumulators. -/
def runAccum (bins : List (ℚ × ℚ)) (bin_labels : List String)
    (members : List Member) : Option EnsembleAcc :=
  runAccumFrom bins bin_labels members initAcc

/-! ## ProbabilityComputer (the finalization loop of
`create_ensemble_probabilities`) -/

/-- Per-bin probability grid: a bin with denominator 0 produces no grid
(warning, `none`); otherwise `prob = clip(counts / denom, 0, 1)`. -/
def probGrid (acc : EnsembleAcc) (lbl : String) : Option (Cell → ℚ) :=
  if acc.denom lbl = 0 then none
  else some fun c => min 1 (max 0 ((acc.counts lbl c : ℚ) / (acc.denom lbl : ℚ)))

/-! ## SpatialRiskAggregator (`EnsembleProcessor.rank_aois_by_probability`)

Geometries are embedded as finite sets of covered grid cells; `area` is the
cell count, `intersection` is set intersection, and `intersects` is
non-emptiness of the intersection. -/

/-- Round-half-to-even on `ℚ`, the rounding mode of `numpy`/`pandas`
`Series.round`. -/
def roundHalfEven (q : ℚ) : ℤ :=
  if q - ⌊q⌋ < 1 / 2 then ⌊q⌋
  else if 1 / 2 < q - ⌊q⌋ then ⌊q⌋ + 1
  else if ⌊q⌋ % 2 = 0 then ⌊q⌋ else ⌊q⌋ + 1

/-- Pandas `Series.round(1)`: round to one decimal place (`centroid.x.round(1)`). -/
def round1 (q : ℚ) : ℚ := (roundHalfEven (10 * q) : ℚ) / 10

/-- One row of the `aoi_data` frame built by `rank_aois_by_probability`: a
single AOI polygon tagged with its parent member's metadata.  `centroid` is
the polygon centroid (lon, lat) and `cells` the polygon's footprint. -/
structure AoiRow where
  method : String
  date : String
  fxx : ℕ
  threshold : ℚ
  bin : String
  centroid : ℚ × ℚ
  cells : Finset Cell
  mean_precip_mm : ℚ
  max_precip_mm : ℚ
  area_deg2 : ℚ
deriving DecidableEq

/-- The `groupby` key: (rounded centroid lon, rounded centroid lat, bin). -/
def rowKey (r : AoiRow) : ℚ × ℚ × String :=
  (round1 r.centroid.1, round1 r.centroid.2, r.bin)

/-- The rows `groupby(['centroid_lon', 'centroid_lat', 'bin'])` gathers under
one key (original order preserved within a group, as pandas does). -/
def groupRows (rows : List AoiRow) (k : ℚ × ℚ × String) : List AoiRow :=
  rows.filter fun r => rowKey r = k

/-- The distinct group keys (one per emitted RiskGroup row). -/
def groupKeys (rows : List AoiRow) : List (ℚ × ℚ × String) :=
  (rows.map rowKey).dedup

/-- The `ensemble_count` column: `grouped['method'].apply(len)` where the
`method` aggregate is `lambda x: list(x)` — the length of the list of
per-row methods, duplicates included. -/
def ensemble_count (rows : List AoiRow) (k : ℚ × ℚ × String) : ℕ :=
  ((groupRows rows k).map fun r => r.method).length

/-- The number of distinct contributing methods of a group (the quantity the
specification says `ensemble_count` equals). -/
def distinctMethodCount (rows : List AoiRow) (k : ℚ × ℚ × String) : ℕ :=
  ((groupRows rows k).map fun r => r.method).dedup.length

/-- One polygon of the population (census) layer, carrying its population
attribute and its footprint. -/
structure PopUnit where
  pop : ℚ
  cells : Finset Cell
deriving DecidableEq

/-- The `matching_rows` filter of the population loop: all AOI rows whose
rounded centroid equals the group's — the bin is NOT part of this filter. -/
def matchingRows (rows : List AoiRow) (lon lat : ℚ) : List AoiRow :=
  rows.filter fun r => round1 r.centroid.1 = lon ∧ round1 r.centroid.2 = lat

/-- The `unary_union` of the geometries of all centroid-matching rows. -/
def combinedGeom (rows : List AoiRow) (lon lat : ℚ) : Finset Cell :=
  (matchingRows rows lon lat).foldr (fun r acc => r.cells ∪ acc) ∅

/-- The area-weighted population sum over the census units whose geometry
intersects `g`: `pop × intersection_area / original_area`, summed. -/
def weightedPop (census : List PopUnit) (g : Finset Cell) : ℚ :=
  ((census.filter fun u => (u.cells ∩ g).Nonempty).map
    fun u => u.pop * ((u.cells ∩ g).card : ℚ) / (u.cells.card : ℚ)).sum

/-- Python `int()`: truncation toward zero of a rational. -/
def ratTrunc (q : ℚ) : ℤ := if 0 ≤ q then ⌊q⌋ else ⌈q⌉

/-- The `population_affected` value computed for the grouped row at rounded centroid
(lon, lat): truncated weighted population over the union of ALL rows whose
centroid matches (whatever their bin). -/
def population_affected (census : List PopUnit) (rows : List AoiRow)
    (lon lat : ℚ) : ℤ :=
  ratTrunc (weightedPop census (combinedGeom rows lon lat))

/-- The union of the geometries of the rows of one group (same key,
including the bin), as the specification describes it. -/
def groupGeomSpec (rows : List AoiRow) (k : ℚ × ℚ × String) : Finset Cell :=
  (groupRows rows k).foldr (fun r acc => r.cells ∪ acc) ∅

/-- Modelled from the spec: `population_affected` as §4.6 step 3 words it —
the weighted population sum taken over the units intersecting the union of
the GROUP's own member geometries. Used only to compare against the
implementation's `population_affected`. -/
def population_affected_spec (census : List PopUnit) (rows : List AoiRow)
    (k : ℚ × ℚ × String) : ℚ :=
  weightedPop census (groupGeomSpec rows k)

/-! ## AOIExtractor (`ForecastProcessor.generate_aois`)

The input field is a list of rows of values; cell (i, j) is row i, column j.
Connected-component labeling (`scipy.ndimage.label`, default 4-connectivity)
is embedded directly on the set of masked cells. -/

/-- The cells of the strict-threshold mask `precip_data > threshold`, in
row-major order. -/
def maskCells (field : List (List ℚ)) (threshold : ℚ) : List Cell :=
  (field.enum.map fun p =>
    p.2.enum.filterMap fun q =>
      if threshold < q.2 then some (p.1, q.1) else none).flatten

/-- 4-connected neighbor candidates of a cell (with truncated subtraction at
the grid edge, where the candidate degenerates to the cell itself). -/
def neighbors4 (c : Cell) : List Cell :=
  [(c.1 + 1, c.2), (c.1 - 1, c.2), (c.1, c.2 + 1), (c.1, c.2 - 1)]

/-- Grow a region one step: adjoin every masked cell adjacent to it. -/
def expandOnce (mask : Finset Cell) (s : Finset Cell) : Finset Cell :=
  s ∪ mask.filter fun c => ∃ d ∈ s, c ∈ neighbors4 d

/-- The connected component of `c` within `mask`: expanding `|mask|` times
reaches the fixpoint. -/
def componentFrom (mask : Finset Cell) (c : Cell) : Finset Cell :=
  (expandOnce mask)^[mask.card] {c}

/-- All connected components, in row-major order of first discovery (the
label order `scipy.ndimage.label` assigns). -/
def componentsOf (maskList : List Cell) : List (Finset Cell) :=
  maskList.foldl
    (fun comps c =>
      if comps.any fun comp => c ∈ comp then comps
      else comps ++ [componentFrom maskList.toFinset c])
    []

/-- Value of the field at a cell (components only hold in-bounds cells). -/
def valueAt (field : List (List ℚ)) (c : Cell) : ℚ :=
  ((field.getD c.1 []).getD c.2 0)

/-- Mean of the field over one component: `precip_data[aoi_mask].mean()`. -/
def meanOver (field : List (List ℚ)) (comp : Finset Cell) : ℚ :=
  comp.sum (valueAt field) / (comp.card : ℚ)

/-- Max of the field over one component: `precip_data[aoi_mask].max()`. -/
def maxOver (field : List (List ℚ)) (comp : Finset Cell) : ℚ :=
  if h : comp.Nonempty then comp.sup' h (valueAt field) else 0

/-- One AOI record of the output frame. -/
structure AOI where
  id : ℕ
  mean_precip_mm : ℚ
  max_precip_mm : ℚ
  area_deg2 : ℚ
  cells : Finset Cell
deriving DecidableEq

/-- The output GeoDataFrame: its column names and its AOI rows. -/
structure AoiFrame where
  columns : List String
  rows : List AOI
deriving DecidableEq

/-- The attribute columns `generate_aois` always emits. -/
def aoiColumns : List String := ["id", "mean_precip_mm", "max_precip_mm", "area_deg2"]

/-- Model of `ForecastProcessor.generate_aois`: mask strictly above threshold, label
connected regions, short-circuit to an empty frame when there are none, else
polygonize each region (footprint area = cell count × pixel area), drop
regions below `min_area`, and emit per-region statistics.  Total: always
returns a frame, never a null state. -/
def generate_aois (field : List (List ℚ)) (threshold min_area pixArea : ℚ) :
    AoiFrame :=
  let mask := maskCells field threshold
  let comps := componentsOf mask
  if comps.length = 0 then { columns := aoiColumns, rows := [] }
  else
    { columns := aoiColumns,
      rows := comps.enum.filterMap fun p =>
        let area := (p.2.card : ℚ) * pixArea
        if area < min_area then none
        else some { id := p.1 + 1, mean_precip_mm := meanOver field p.2,
                    max_precip_mm := maxOver field p.2, area_deg2 := area,
                    cells := p.2 } }

/-! ## Concrete inputs used by witnesses and counterexamples -/

/-- A one-bin configuration: the closed range [0, 5]. -/
def bins1 : List (ℚ × ℚ) := [(0, 5)]

/-- Its label list. -/
def labels1 : List String := ["low"]

/-- A member whose threshold 10 matches no bin of `bins1`. -/
def memUnmatched : Member :=
  { method := "hrrr", date := "2024-01-01", fxx := 12, thr := 10,
    readGeoms := some [] }

/-- A member in bin "low" whose AOI file fails to read. -/
def memReadFail : Member :=
  { method := "hrrr", date := "2024-01-01", fxx := 12, thr := 3,
    readGeoms := none }

/-- Scenario C, member 1: one polygon covering cell (0, 0). -/
def memPoly : Member :=
  { method := "hrrr", date := "2024-01-01", fxx := 6, thr := 3,
    readGeoms := some [{(0, 0)}] }

/-- Scenario C, members 2 and 3: same bin, no polygons. -/
def memNoPoly : Member :=
  { method := "gfs", date := "2024-01-01", fxx := 6, thr := 4,
    readGeoms := some [] }

/-- A third empty member for scenario C (distinct method). -/
def memNoPoly2 : Member :=
  { method := "nam", date := "2024-01-01", fxx := 6, thr := 5,
    readGeoms := some [] }

/-- An accumulator whose count at every cell (2) exceeds its denominator (1),
exercising the clip. -/
def accClip : EnsembleAcc := ⟨fun _ _ => 2, fun _ => 1⟩

/-- The probability grid `probGrid accClip "A"` produces. -/
def gClip : Cell → ℚ :=
  fun c => min 1 (max 0 ((accClip.counts "A" c : ℚ) / (accClip.denom "A" : ℚ)))

/-- Two AOI rows from the SAME method, same rounded centroid, same bin. -/
def rowSameA : AoiRow :=
  { method := "hrrr", date := "2024-01-01", fxx := 6, threshold := 3,
    bin := "low", centroid := (0, 0), cells := {(0, 0)},
    mean_precip_mm := 10, max_precip_mm := 20, area_deg2 := 1 }

/-- A second AOI row from the same method at the same key. -/
def rowSameB : AoiRow :=
  { method := "hrrr", date := "2024-01-02", fxx := 12, threshold := 4,
    bin := "low", centroid := (0, 0), cells := {(0, 1)},
    mean_precip_mm := 12, max_precip_mm := 25, area_deg2 := 1 }

/-- Scenario D, row 1: method "hrrr". -/
def rowD1 : AoiRow :=
  { method := "hrrr", date := "2024-01-01", fxx := 6, threshold := 3,
    bin := "low", centroid := (0, 0), cells := {(0, 0)},
    mean_precip_mm := 10, max_precip_mm := 20, area_deg2 := 1 }

/-- Scenario D, row 2: method "gfs", same rounded centroid and bin. -/
def rowD2 : AoiRow :=
  { method := "gfs", date := "2024-01-01", fxx := 6, threshold := 3,
    bin := "low", centroid := (0, 0), cells := {(0, 1)},
    mean_precip_mm := 14, max_precip_mm := 30, area_deg2 := 1 }

/-- The group key shared by the concrete rows above. -/
def keyLow : ℚ × ℚ × String := (0, 0, "low")

/-- A population unit of 1000 inhabitants spread over two cells. -/
def popUnitWhole : PopUnit := { pop := 1000, cells := {(1, 2), (1, 3)} }

/-- An AOI row of bin "binA" covering the left half of `popUnitWhole`. -/
def rowHalfA : AoiRow :=
  { method := "hrrr", date := "2024-01-01", fxx := 6, threshold := 3,
    bin := "binA", centroid := (0, 0), cells := {(1, 2)},
    mean_precip_mm := 10, max_precip_mm := 20, area_deg2 := 1 }

/-- An AOI row of bin "binB", same rounded centroid, covering the right
half of `popUnitWhole`. -/
def rowHalfB : AoiRow :=
  { method := "gfs", date := "2024-01-01", fxx := 6, threshold := 50,
    bin := "binB", centroid := (0, 0), cells := {(1, 3)},
    mean_precip_mm := 60, max_precip_mm := 80, area_deg2 := 1 }

/-- A population unit of 1000 inhabitants over three cells, of which a
group covers one: the weighted sum 1000/3 is fractional. -/
def popUnitThird : PopUnit := { pop := 1000, cells := {(1, 2), (1, 3), (1, 4)} }

/-- The recursive loop agrees with a first-match search over the zipped list. -/
theorem classifyZipped_eq_find (threshold : ℚ) (l : List ((ℚ × ℚ) × String)) :
    classifyZipped threshold l =
      ((l.find? fun p => decide (p.1.1 ≤ threshold ∧ threshold ≤ p.1.2)).map
        Prod.snd).getD UNBINNED := by
  induction l with
  | nil => rfl
  | cons p rest ih =>
    obtain ⟨⟨lo, hi⟩, lbl⟩ := p
    by_cases h : lo ≤ threshold ∧ threshold ≤ hi
    · simp [classifyZipped, h, List.find?]
    · simp only [classifyZipped, if_neg h, List.find?]
      have hd : (decide (lo ≤ threshold ∧ threshold ≤ hi)) = false := by
        simpa using h
      simp [hd, ih]

/-- C6: `threshold_to_bin_label` is total and deterministic (it is a pure
function of its arguments, so equal inputs give equal results): it returns
the label of the first bin in declaration order whose closed interval
[lo, hi] contains the threshold, and the `"UNBINNED"` sentinel when no bin
matches; at a shared boundary value the first-declared bin wins. -/
theorem binClassifier_first_match :
    (∀ (bins : List (ℚ × ℚ)) (bin_labels : List String) (thr : ℚ),
        threshold_to_bin_label bins bin_labels thr =
          (((bins.zip bin_labels).find? fun p =>
              decide (p.1.1 ≤ thr ∧ thr ≤ p.1.2)).map Prod.snd).getD UNBINNED) ∧
    threshold_to_bin_label [(0, 5), (5, 10)] ["first_range", "second_range"] 5 =
      "first_range" := by
  refine ⟨fun bins bin_labels thr => classifyZipped_eq_find thr _, ?_⟩
  decide

/-- C2: an unmatched threshold does get the sentinel label from the
classifier, but `create_ensemble_probabilities` then evaluates
`denom_by_bin["UNBINNED"] += 1` outside its `try` block, so the whole
accumulation run aborts with a `KeyError` (modelled as `none`) instead of
excluding the member and completing with a warning. -/
theorem unmatched_threshold_aborts :
    threshold_to_bin_label bins1 labels1 memUnmatched.thr = UNBINNED ∧
    runAccum bins1 labels1 [memUnmatched] = none :=
  ⟨by decide, rfl⟩

/-- C3 counterexample: a member whose AOI file fails to read during the
accumulation loop still increments its bin's denominator (the increment
precedes the `try` block), while contributing nothing to the count grid —
so the claimed "neither denominator nor counts" atomicity fails. -/
theorem readFail_denominator_cex :
    ((runAccum bins1 labels1 [memReadFail]).map fun a => a.denom "low") = some 1 ∧
    ∀ c : Cell,
      ((runAccum bins1 labels1 [memReadFail]).map fun a => a.counts "low" c) =
        some 0 := by
  refine ⟨by decide, fun c => ?_⟩
  norm_num [runAccum, runAccumFrom, stepMember, memberCells,
    threshold_to_bin_label, classifyZipped, bins1, labels1, initAcc,
    memReadFail, UNBINNED]

/-- C3 amended: a member whose read fails during accumulation is skipped
with a warning and contributes nothing to its bin's count grid, but its
bin's denominator is still incremented by 1 (the member counts as a
"voted no" ensemble member); the run continues. -/
theorem readFail_skips_counts_only (bins : List (ℚ × ℚ))
    (bin_labels : List String) (m : Member) (st : EnsembleAcc)
    (hread : m.readGeoms = none)
    (hmem : threshold_to_bin_label bins bin_labels m.thr ∈ bin_labels) :
    stepMember bins bin_labels st m =
      some { counts := st.counts,
             denom := fun k =>
               if k = threshold_to_bin_label bins bin_labels m.thr
               then st.denom k + 1 else st.denom k } := by
  have hc : memberCells m = ∅ := by simp [memberCells, hread]
  simp only [stepMember, if_pos hmem, Option.some.injEq, EnsembleAcc.mk.injEq,
    and_true]
  funext k c
  simp [hc]

/-- C3 witness: the amended step behavior at a concrete failing member. -/
theorem readFail_skips_counts_only_witness :
    memReadFail.readGeoms = none ∧
    threshold_to_bin_label bins1 labels1 memReadFail.thr ∈ labels1 ∧
    stepMember bins1 labels1 initAcc memReadFail =
      some { counts := initAcc.counts,
             denom := fun k =>
               if k = threshold_to_bin_label bins1 labels1 memReadFail.thr
               then initAcc.denom k + 1 else initAcc.denom k } :=
  ⟨rfl, by decide, readFail_skips_counts_only _ _ _ _ rfl (by decide)⟩

/-- Unfolding of the accumulation loop over a cons cell. -/
theorem runAccumFrom_cons (bins : List (ℚ × ℚ)) (bin_labels : List String)
    (m : Member) (ms : List Member) (st : EnsembleAcc) :
    runAccumFrom bins bin_labels (m :: ms) st =
      (stepMember bins bin_labels st m).bind
        fun s => runAccumFrom bins bin_labels ms s := by
  cases h : stepMember bins bin_labels st m
  · simp [runAccumFrom, h]
  · simp [runAccumFrom, h]

/-- Two member steps commute: the accumulation is a commutative reduction. -/
theorem stepMember_comm (bins : List (ℚ × ℚ)) (bin_labels : List String)
    (m1 m2 : Member) (st : EnsembleAcc) :
    ((stepMember bins bin_labels st m1).bind
      fun s => stepMember bins bin_labels s m2) =
    ((stepMember bins bin_labels st m2).bind
      fun s => stepMember bins bin_labels s m1) := by
  by_cases h1 : threshold_to_bin_label bins bin_labels m1.thr ∈ bin_labels <;>
    by_cases h2 : threshold_to_bin_label bins bin_labels m2.thr ∈ bin_labels
  · simp only [stepMember, if_pos h1, if_pos h2, Option.some_bind,
      Option.some.injEq, EnsembleAcc.mk.injEq]
    constructor
    · funext k c
      by_cases hA : k = threshold_to_bin_label bins bin_labels m1.thr ∧
          c ∈ memberCells m1 <;>
        by_cases hB : k = threshold_to_bin_label bins bin_labels m2.thr ∧
            c ∈ memberCells m2
      · have hl : threshold_to_bin_label bins bin_labels m1.thr =
            threshold_to_bin_label bins bin_labels m2.thr := hA.1.symm.trans hB.1
        simp [hA, hB, hl, hA.2, hB.2, Nat.mod_add_mod]
      · have hn : ¬(threshold_to_bin_label bins bin_labels m1.thr =
            threshold_to_bin_label bins bin_labels m2.thr ∧ c ∈ memberCells m2) :=
          fun hx => hB ⟨hA.1.trans hx.1, hx.2⟩
        simp [hA, hB, hn]
      · have hn : ¬(threshold_to_bin_label bins bin_labels m2.thr =
            threshold_to_bin_label bins bin_labels m1.thr ∧ c ∈ memberCells m1) :=
          fun hx => hA ⟨hB.1.trans hx.1, hx.2⟩
        simp [hA, hB, hn]
      · simp [hA, hB]
    · funext k
      by_cases hA : k = threshold_to_bin_label bins bin_labels m1.thr <;>
        by_cases hB : k = threshold_to_bin_label bins bin_labels m2.thr
      · have hl : threshold_to_bin_label bins bin_labels m1.thr =
            threshold_to_bin_label bins bin_labels m2.thr := hA.symm.trans hB
        simp [hA, hB, hl]
      · have hn : threshold_to_bin_label bins bin_labels m1.thr ≠
            threshold_to_bin_label bins bin_labels m2.thr :=
          fun hx => hB (hA.trans hx)
        simp [hA, hB, hn]
      · have hn : threshold_to_bin_label bins bin_labels m2.thr ≠
            threshold_to_bin_label bins bin_labels m1.thr :=
          fun hx => hA (hB.trans hx)
        simp [hA, hB, hn]
      · simp [hA, hB]
  · simp [stepMember, h1, h2]
  · simp [stepMember, h1, h2]
  · simp [stepMember, h1, h2]

/-- The accumulation loop is invariant under permutations of the members. -/
theorem runAccumFrom_perm (bins : List (ℚ × ℚ)) (bin_labels : List String)
    {ms ms' : List Member} (h : ms.Perm ms') :
    ∀ st, runAccumFrom bins bin_labels ms st =
      runAccumFrom bins bin_labels ms' st := by
  induction h with
  | nil => intro st; rfl
  | cons x h ih =>
    intro st
    rw [runAccumFrom_cons, runAccumFrom_cons]
    cases hs : stepMember bins bin_labels st x
    · rfl
    · simpa using ih _
  | swap x y l =>
    intro st
    simp only [runAccumFrom_cons]
    rw [← Option.bind_assoc, ← Option.bind_assoc, stepMember_comm]
  | trans h1 h2 ih1 ih2 =>
    intro st
    exact (ih1 st).trans (ih2 st)

/-- C5: processing the members in any permutation yields identical count
grids and denominators (the whole accumulator state) and identical per-bin
probability grids. -/
theorem accumulation_order_independent (bins : List (ℚ × ℚ))
    (bin_labels : List String) (ms ms' : List Member) (h : ms.Perm ms') :
    runAccum bins bin_labels ms = runAccum bins bin_labels ms' ∧
    ∀ lbl, ((runAccum bins bin_labels ms).bind fun a => probGrid a lbl) =
      ((runAccum bins bin_labels ms').bind fun a => probGrid a lbl) := by
  have he := runAccumFrom_perm bins bin_labels h initAcc
  exact ⟨he, fun lbl => by unfold runAccum; rw [he]⟩

/-- C5 witness: swapping two concrete members leaves the result unchanged. -/
theorem accumulation_order_independent_witness :
    ([memPoly, memNoPoly].Perm [memNoPoly, memPoly]) ∧
    runAccum bins1 labels1 [memPoly, memNoPoly] =
      runAccum bins1 labels1 [memNoPoly, memPoly] :=
  ⟨List.Perm.swap memNoPoly memPoly [],
    (accumulation_order_independent bins1 labels1 _ _
      (List.Perm.swap memNoPoly memPoly [])).1⟩

/-- C7: for a bin with positive denominator the emitted grid is the count
grid divided by the denominator clipped to [0, 1], so every cell lies in
[0, 1]; a bin with denominator 0 produces no grid (`none`, a warning). -/
theorem probability_bounds (acc : EnsembleAcc) (lbl : String) :
    (probGrid acc lbl = none ↔ acc.denom lbl = 0) ∧
    ∀ g, probGrid acc lbl = some g →
      ∀ c, g c = min 1 (max 0 ((acc.counts lbl c : ℚ) / (acc.denom lbl : ℚ))) ∧
        0 ≤ g c ∧ g c ≤ 1 := by
  constructor
  · unfold probGrid
    split <;> simp [*]
  · intro g hg c
    unfold probGrid at hg
    split at hg
    · exact absurd hg (by simp)
    · have h := Option.some.inj hg
      subst h
      refine ⟨rfl, ?_, min_le_left 1 _⟩
      exact le_min (by norm_num) (le_max_left 0 _)

/-- C7 witness: a concrete accumulator whose raw ratio 2/1 is clipped to 1. -/
theorem probability_bounds_witness :
    probGrid accClip "A" = some gClip ∧ gClip (0, 0) = 1 ∧
    0 ≤ gClip (0, 0) ∧ gClip (0, 0) ≤ 1 := by
  have h : probGrid accClip "A" = some gClip := rfl
  refine ⟨h, ?_, ((probability_bounds accClip "A").2 gClip h (0, 0)).2⟩
  norm_num [gClip, accClip]

/-- C4: whenever a member's threshold classifies into a configured bin, that
bin's denominator is incremented by exactly 1 (and no other bin's), whatever
the member's AOI collection holds — in particular when it is empty; and
scenario C: three members of one bin, exactly one covering cell (0, 0) with
a polygon, give a probability grid worth 1/3 at (0, 0) and 0 elsewhere. -/
theorem member_denominator_and_scenarioC :
    (∀ (bins : List (ℚ × ℚ)) (bin_labels : List String) (m : Member)
        (st : EnsembleAcc),
        threshold_to_bin_label bins bin_labels m.thr ∈ bin_labels →
        ∃ st', stepMember bins bin_labels st m = some st' ∧
          st'.denom (threshold_to_bin_label bins bin_labels m.thr) =
            st.denom (threshold_to_bin_label bins bin_labels m.thr) + 1 ∧
          ∀ k, k ≠ threshold_to_bin_label bins bin_labels m.thr →
            st'.denom k = st.denom k) ∧
    (((runAccum bins1 labels1 [memPoly, memNoPoly, memNoPoly2]).bind fun a =>
        probGrid a "low").map fun g => g (0, 0)) = some (1 / 3) ∧
    ∀ c : Cell, c ≠ (0, 0) →
      (((runAccum bins1 labels1 [memPoly, memNoPoly, memNoPoly2]).bind fun a =>
          probGrid a "low").map fun g => g c) = some 0 := by
  refine ⟨?_, ?_, ?_⟩
  · intro bins bin_labels m st hmem
    refine ⟨_, by rw [stepMember, if_pos hmem], by simp, fun k hk => by simp [hk]⟩
  · norm_num [runAccum, runAccumFrom, stepMember, memberCells,
      threshold_to_bin_label, classifyZipped, bins1, labels1, initAcc,
      memPoly, memNoPoly, memNoPoly2, UNBINNED, probGrid, U16]
  · intro c hc
    have hc0 : ¬ c = 0 := by simpa using hc
    norm_num [runAccum, runAccumFrom, stepMember, memberCells,
      threshold_to_bin_label, classifyZipped, bins1, labels1, initAcc,
      memPoly, memNoPoly, memNoPoly2, UNBINNED, probGrid, U16, hc, hc0,
      min_def, max_def]

/-- Rounding to one decimal fixes 0. -/
theorem round1_zero : round1 0 = 0 := by
  norm_num [round1, roundHalfEven]

/-- C1 counterexample: two AOIs of the SAME method whose centroids round to
the same key in the same bin form one group with `ensemble_count = 2`,
while the number of distinct contributing methods is 1 — `ensemble_count`
counts grouped AOI rows (`len(list(methods))`), not distinct methods. -/
theorem ensembleCount_counts_rows_cex :
    ensemble_count [rowSameA, rowSameB] keyLow = 2 ∧
    distinctMethodCount [rowSameA, rowSameB] keyLow = 1 ∧ (2 : ℕ) ≠ 1 := by
  have hA : rowKey rowSameA = keyLow := by
    simp [rowKey, rowSameA, keyLow, round1_zero]
  have hB : rowKey rowSameB = keyLow := by
    simp [rowKey, rowSameB, keyLow, round1_zero]
  have hf : groupRows [rowSameA, rowSameB] keyLow = [rowSameA, rowSameB] := by
    simp [groupRows, hA, hB]
  refine ⟨?_, ?_, by decide⟩
  · simp [ensemble_count, hf]
  · rw [distinctMethodCount, hf]
    simp [rowSameA, rowSameB, List.dedup_cons_of_mem]

/-- C1 amended: each RiskGroup's `ensemble_count` equals the number of AOI
rows grouped under its (rounded-centroid, bin) key — the length of the
duplicate-keeping method list — which agrees with the distinct-method count
only when every grouped AOI comes from a different method; scenario D (two
AOIs from two different methods at one key and bin) still yields one group
with `ensemble_count = 2`. -/
theorem ensembleCount_row_count :
    (∀ (rows : List AoiRow) (k : ℚ × ℚ × String),
        ensemble_count rows k = (groupRows rows k).length) ∧
    ensemble_count [rowD1, rowD2] keyLow = 2 ∧
    groupKeys [rowD1, rowD2] = [keyLow] := by
  have h1 : rowKey rowD1 = keyLow := by
    simp [rowKey, rowD1, keyLow, round1_zero]
  have h2 : rowKey rowD2 = keyLow := by
    simp [rowKey, rowD2, keyLow, round1_zero]
  refine ⟨fun rows k => by simp [ensemble_count], ?_, ?_⟩
  · simp [ensemble_count, groupRows, h1, h2]
  · simp [groupKeys, h1, h2, List.dedup_cons_of_mem]

/-- C9: when no cell of the field strictly exceeds the threshold, the mask
is empty, labeling finds zero features, and `generate_aois` short-circuits
to an empty AOI collection carrying the expected attribute columns — a
frame, never a null state and never an error. -/
theorem generate_aois_empty_mask (field : List (List ℚ))
    (threshold min_area pixArea : ℚ)
    (h : ∀ row ∈ field, ∀ v ∈ row, v ≤ threshold) :
    generate_aois field threshold min_area pixArea =
      { columns := aoiColumns, rows := [] } := by
  have hm : maskCells field threshold = [] := by
    rw [maskCells, List.flatten_eq_nil_iff]
    intro xs hxs
    obtain ⟨p, hp, rfl⟩ := List.mem_map.mp hxs
    rw [List.filterMap_eq_nil_iff]
    intro q hq
    have hrow : p.2 ∈ field :=
      List.getElem?_mem (List.mem_enum_iff_getElem?.mp hp)
    have hv : q.2 ∈ p.2 :=
      List.getElem?_mem (List.mem_enum_iff_getElem?.mp hq)
    exact if_neg (not_lt.mpr (h p.2 hrow q.2 hv))
  simp [generate_aois, hm, componentsOf]

/-- C9 witness: a concrete all-zero field below threshold 5. -/
theorem generate_aois_empty_mask_witness :
    (∀ row ∈ ([[0, 0], [0, 0]] : List (List ℚ)), ∀ v ∈ row, v ≤ 5) ∧
    generate_aois [[0, 0], [0, 0]] 5 0 1 =
      { columns := aoiColumns, rows := [] } :=
  ⟨by decide, generate_aois_empty_mask _ _ _ _ (by decide)⟩

/-- C4 witness: a concrete empty-collection member still bumps its bin's
denominator by exactly 1. -/
theorem member_denominator_witness :
    threshold_to_bin_label bins1 labels1 memNoPoly.thr ∈ labels1 ∧
    ∃ st', stepMember bins1 labels1 initAcc memNoPoly = some st' ∧
      st'.denom (threshold_to_bin_label bins1 labels1 memNoPoly.thr) =
        initAcc.denom (threshold_to_bin_label bins1 labels1 memNoPoly.thr) + 1 ∧
      ∀ k, k ≠ threshold_to_bin_label bins1 labels1 memNoPoly.thr →
        st'.denom k = initAcc.denom k :=
  ⟨by decide,
    member_denominator_and_scenarioC.1 bins1 labels1 memNoPoly initAcc (by decide)⟩

/-- Dropping the intersects-filter does not change the weighted population
sum: a unit with empty intersection contributes a zero term. -/
theorem weightedPop_eq_unfiltered (census : List PopUnit) (g : Finset Cell) :
    weightedPop census g =
      ((census.map fun u =>
        u.pop * ((u.cells ∩ g).card : ℚ) / (u.cells.card : ℚ)).sum) := by
  induction census with
  | nil => rfl
  | cons u rest ih =>
    by_cases h : (u.cells ∩ g).Nonempty
    · simp only [weightedPop] at ih ⊢
      simp [List.filter_cons, h, ih]
    · have h0 : (u.cells ∩ g).card = 0 := by
        rw [Finset.card_eq_zero]
        exact Finset.not_nonempty_iff_eq_empty.mp h
      simp only [weightedPop] at ih ⊢
      simp [List.filter_cons, h, ih, h0]

/-- C8 counterexample: the population loop unions every AOI sharing the
rounded centroid, ignoring the bin part of the group key.  The "binA" group
owns only the left-half AOI (50% of the unit: the spec formula gives 500),
but the code unions in the "binB" AOI at the same centroid and reports
1000. -/
theorem population_cross_bin_cex :
    population_affected [popUnitWhole] [rowHalfA, rowHalfB] 0 0 = 1000 ∧
    population_affected_spec [popUnitWhole] [rowHalfA, rowHalfB]
      (0, 0, "binA") = 500 ∧ ((1000 : ℚ) ≠ 500) := by
  have hm : matchingRows [rowHalfA, rowHalfB] 0 0 = [rowHalfA, rowHalfB] := by
    simp [matchingRows, rowHalfA, rowHalfB, round1_zero]
  have hg : combinedGeom [rowHalfA, rowHalfB] 0 0 =
      ({(1, 2), (1, 3)} : Finset Cell) := by
    rw [combinedGeom, hm]
    decide
  have hka : rowKey rowHalfA = ((0 : ℚ), (0 : ℚ), "binA") := by
    simp [rowKey, rowHalfA, round1_zero]
  have hkb : rowKey rowHalfB ≠ ((0 : ℚ), (0 : ℚ), "binA") := by
    simp [rowKey, rowHalfB, round1_zero]
  have hgr : groupRows [rowHalfA, rowHalfB] ((0 : ℚ), (0 : ℚ), "binA") =
      [rowHalfA] := by
    simp [groupRows, hka, hkb]
  have hgs : groupGeomSpec [rowHalfA, rowHalfB] ((0 : ℚ), (0 : ℚ), "binA") =
      ({(1, 2)} : Finset Cell) := by
    rw [groupGeomSpec, hgr]
    decide
  have hfw : ([popUnitWhole].filter fun u =>
      (u.cells ∩ ({(1, 2), (1, 3)} : Finset Cell)).Nonempty) = [popUnitWhole] := by
    decide
  have hfa : ([popUnitWhole].filter fun u =>
      (u.cells ∩ ({(1, 2)} : Finset Cell)).Nonempty) = [popUnitWhole] := by
    decide
  have hc2 : (popUnitWhole.cells ∩ ({(1, 2), (1, 3)} : Finset Cell)).card = 2 := by
    decide
  have hc1 : (popUnitWhole.cells ∩ ({(1, 2)} : Finset Cell)).card = 1 := by
    decide
  have hcw : popUnitWhole.cells.card = 2 := by decide
  have hw : weightedPop [popUnitWhole] ({(1, 2), (1, 3)} : Finset Cell) =
      1000 := by
    rw [weightedPop, hfw]
    simp only [List.map_cons, List.map_nil, List.sum_cons, List.sum_nil, hc2, hcw]
    norm_num [popUnitWhole]
  have hwa : weightedPop [popUnitWhole] ({(1, 2)} : Finset Cell) = 500 := by
    rw [weightedPop, hfa]
    simp only [List.map_cons, List.map_nil, List.sum_cons, List.sum_nil, hc1, hcw]
    norm_num [popUnitWhole]
  refine ⟨?_, ?_, by norm_num⟩
  · rw [population_affected, hg, hw]
    norm_num [ratTrunc]
  · rw [population_affected_spec, hgs, hwa]

/-- C8 amended: for each grouped row, `population_affected` is the truncated
area-weighted population sum over units intersecting the union of ALL AOIs
sharing the group's rounded centroid, whatever their bin (equivalently, the
sum over every census unit, since non-intersecting units contribute 0); a
group with no intersecting unit gets 0, not an error; scenario E (a lone
group covering 50% of a single unit of population 1000) yields 500. -/
theorem population_affected_amended :
    (∀ (census : List PopUnit) (rows : List AoiRow) (lon lat : ℚ),
        population_affected census rows lon lat =
          ratTrunc ((census.map fun u =>
            u.pop * ((u.cells ∩ combinedGeom rows lon lat).card : ℚ) /
              (u.cells.card : ℚ)).sum)) ∧
    (∀ (census : List PopUnit) (rows : List AoiRow) (lon lat : ℚ),
        (∀ u ∈ census, u.cells ∩ combinedGeom rows lon lat = ∅) →
        population_affected census rows lon lat = 0) ∧
    population_affected [popUnitWhole] [rowHalfA] 0 0 = 500 := by
  refine ⟨?_, ?_, ?_⟩
  · intro census rows lon lat
    rw [population_affected, weightedPop_eq_unfiltered]
  · intro census rows lon lat hall
    have hf : (census.filter fun u =>
        (u.cells ∩ combinedGeom rows lon lat).Nonempty) = [] := by
      rw [List.filter_eq_nil_iff]
      intro u hu
      simp [hall u hu]
    rw [population_affected, weightedPop, hf]
    norm_num [ratTrunc]
  · have hm : matchingRows [rowHalfA] 0 0 = [rowHalfA] := by
      simp [matchingRows, rowHalfA, round1_zero]
    have hg : combinedGeom [rowHalfA] 0 0 = ({(1, 2)} : Finset Cell) := by
      rw [combinedGeom, hm]
      decide
    have hfa : ([popUnitWhole].filter fun u =>
        (u.cells ∩ ({(1, 2)} : Finset Cell)).Nonempty) = [popUnitWhole] := by
      decide
    have hc1 : (popUnitWhole.cells ∩ ({(1, 2)} : Finset Cell)).card = 1 := by
      decide
    have hcw : popUnitWhole.cells.card = 2 := by decide
    have hwa : weightedPop [popUnitWhole] ({(1, 2)} : Finset Cell) = 500 := by
      rw [weightedPop, hfa]
      simp only [List.map_cons, List.map_nil, List.sum_cons, List.sum_nil, hc1, hcw]
      norm_num [popUnitWhole]
    rw [population_affected, hg, hwa]
    norm_num [ratTrunc]

/-- C8 witness: a centroid with no AOIs intersects no unit and gets 0. -/
theorem population_affected_amended_witness :
    (∀ u ∈ ([popUnitWhole] : List PopUnit),
      u.cells ∩ combinedGeom [] 0 0 = ∅) ∧
    population_affected [popUnitWhole] [] 0 0 = 0 :=
  have h : ∀ u ∈ ([popUnitWhole] : List PopUnit),
      u.cells ∩ combinedGeom [] 0 0 = ∅ := by
    simp [combinedGeom, matchingRows]
  ⟨h, population_affected_amended.2.1 [popUnitWhole] [] 0 0 h⟩

/-- C10: the stored `population_affected` is Python `int()` truncation of
the weighted sum; whenever the weighted sum is non-negative the stored value
is its floor and never exceeds it — fractional weighted populations are
silently discarded. -/
theorem population_trunc_floor :
    (∀ (census : List PopUnit) (rows : List AoiRow) (lon lat : ℚ),
        population_affected census rows lon lat =
          ratTrunc (weightedPop census (combinedGeom rows lon lat))) ∧
    ∀ (census : List PopUnit) (rows : List AoiRow) (lon lat : ℚ),
      0 ≤ weightedPop census (combinedGeom rows lon lat) →
      population_affected census rows lon lat =
        ⌊weightedPop census (combinedGeom rows lon lat)⌋ ∧
      ((population_affected census rows lon lat : ℚ) ≤
        weightedPop census (combinedGeom rows lon lat)) := by
  refine ⟨fun _ _ _ _ => rfl, fun census rows lon lat hq => ?_⟩
  have ht : population_affected census rows lon lat =
      ⌊weightedPop census (combinedGeom rows lon lat)⌋ := by
    rw [population_affected, ratTrunc, if_pos hq]
  exact ⟨ht, by rw [ht]; exact Int.floor_le _⟩

/-- C10 witness: a unit of 1000 people over three cells, one covered: the
exact weighted sum 1000/3 is truncated to 333. -/
theorem population_trunc_floor_witness :
    0 ≤ weightedPop [popUnitThird] (combinedGeom [rowHalfA] 0 0) ∧
    population_affected [popUnitThird] [rowHalfA] 0 0 =
      ⌊weightedPop [popUnitThird] (combinedGeom [rowHalfA] 0 0)⌋ ∧
    ((population_affected [popUnitThird] [rowHalfA] 0 0 : ℚ) ≤
      weightedPop [popUnitThird] (combinedGeom [rowHalfA] 0 0)) := by
  have hm : matchingRows [rowHalfA] 0 0 = [rowHalfA] := by
    simp [matchingRows, rowHalfA, round1_zero]
  have hg : combinedGeom [rowHalfA] 0 0 = ({(1, 2)} : Finset Cell) := by
    rw [combinedGeom, hm]
    decide
  have hfa : ([popUnitThird].filter fun u =>
      (u.cells ∩ ({(1, 2)} : Finset Cell)).Nonempty) = [popUnitThird] := by
    decide
  have hc1 : (popUnitThird.cells ∩ ({(1, 2)} : Finset Cell)).card = 1 := by
    decide
  have hcw : popUnitThird.cells.card = 3 := by decide
  have hw : weightedPop [popUnitThird] ({(1, 2)} : Finset Cell) = 1000 / 3 := by
    rw [weightedPop, hfa]
    simp only [List.map_cons, List.map_nil, List.sum_cons, List.sum_nil, hc1, hcw]
    norm_num [popUnitThird]
  have hq : 0 ≤ weightedPop [popUnitThird] (combinedGeom [rowHalfA] 0 0) := by
    rw [hg, hw]
    norm_num
  exact ⟨hq, population_trunc_floor.2 [popUnitThird] [rowHalfA] 0 0 hq⟩

end PIPECAST
